import Mathlib

/-!
Shallow embedding of the data-analysis core of the dashboard-builder
repository (`dataAnalyzer` utility and the column-type detector of
`DataContext.tsx`), together with proofs checking the specification's
claims against it.

Modelling conventions:
* A JavaScript scalar cell is the tagged variant `Value`
  (`null`/`undefined` are conflated into `Value.null`, since every use in
  the analysed code first replaces them through `??` before inspecting);
  `Value.nan` models a number whose value is `NaN`.
* JavaScript numbers are modelled as exact rationals `ℚ`; `Math.sqrt`
  results live in `ℝ` (`Real.sqrt`). Floating-point representation error
  is out of scope — the spec's statements are about the ideal arithmetic.
* A row (`Record<string, any>`) is an association list `Record`;
  `getV r k` is `r[k]`, with `Value.null` for a missing key.
* JavaScript `Map` (insertion-ordered) is an insertion-ordered
  association list built by a left fold, and the (stable) JS
  `Array.prototype.sort` is `List.insertionSort` with a total preorder.
-/

/-- A JavaScript scalar value as it appears in a dataset cell. -/
inductive Value
  | null : Value
  | num (q : ℚ) : Value
  | nan : Value
  | str (s : String) : Value
deriving DecidableEq, Repr

/-- One row of a dataset: `Record<string, any>` as an association list. -/
abbrev Record := List (String × Value)

/-- `row[k]`: first binding of `k`, `Value.null` when the key is absent
(JS yields `undefined`; the analysed code treats the two alike). -/
def getV (r : Record) (k : String) : Value :=
  (r.lookup k).getD .null

/-- The numeric content of a value: `typeof v === "number" && !isNaN(v)`
yields `some` of the number, anything else `none`. -/
def numVal : Value → Option ℚ
  | .num q => some q
  | _ => none

/-- Model of the JavaScript `String(·)` conversion on scalar values
(used only where the analysed code stringifies group keys; decimal
rendering of numbers is `numToString` below). -/
def jsValueToString : Value → String
  | .null => "null"
  | .nan => "NaN"
  | .num q => toString q
  | .str s => s

/-- `String(v ?? dflt)`: nullish values replaced by the default string
before stringification. -/
def jsStringD (v : Value) (dflt : String) : String :=
  match v with
  | .null => dflt
  | w => jsValueToString w

/-- `Math.round(x * 100) / 100` — JS `Math.round` is `⌊x + 1/2⌋`. -/
def round2 (x : ℚ) : ℚ := (⌊x * 100 + 1 / 2⌋ : ℚ) / 100

/-- The aggregation operation: the `"sum" | "mean" | "count"` literal. -/
inductive Op
  | sum | mean | count
deriving DecidableEq, Repr

/-- The reduction step of `aggregateByGroup`: Sum is the arithmetic
total, Mean is total over count (`0` for an empty group), Count the
number of collected numeric values. -/
def reduceOp : Op → List ℚ → ℚ
  | .sum, vs => vs.sum
  | .mean, vs => if 0 < vs.length then vs.sum / vs.length else 0
  | .count, vs => (vs.length : ℚ)

/-- The string-form group key of a row: `String(row[groupCol] ?? "Unknown")`. -/
def groupKeyStr (r : Record) (g : String) : String :=
  jsStringD (getV r g) "Unknown"

/-- One step of the grouping loop of `aggregateByGroup` over the
insertion-ordered map `groups`: ensure the row's key is present, then
push the row's metric value if it is a valid number. -/
def aggStep (g v : String) (acc : List (String × List ℚ)) (row : Record) :
    List (String × List ℚ) :=
  let key := groupKeyStr row g
  let acc1 := if acc.any (fun p => p.1 == key) then acc else acc ++ [(key, [])]
  match numVal (getV row v) with
  | some q => acc1.map (fun p => if p.1 == key then (p.1, p.2 ++ [q]) else p)
  | none => acc1

/-- The `groups` map of `aggregateByGroup` after the `for` loop. -/
def collectGroups (data : List Record) (g v : String) : List (String × List ℚ) :=
  data.foldl (aggStep g v) []

/-- The output row `{ [groupCol]: name, [valueCol]: value }`; when the two
column names coincide the later (numeric) property wins, as in JS. -/
def mkAggRow (g v : String) (name : String) (val : ℚ) : Record :=
  if g = v then [(g, .num val)] else [(g, .str name), (v, .num val)]

/-- The reduced value of an aggregation output row (`row[valueCol]` read
back as a number, used by the descending sort comparator). -/
def rowValue (v : String) (r : Record) : ℚ :=
  (numVal (getV r v)).getD 0

/-- `aggregateByGroup(data, groupCol, valueCol, operation)` from the data
analysis utility: group rows by string-form key, reduce each group's
valid numeric metric values, round to 2 decimals, sort descending by the
reduced value (stable, so ties keep first-encountered group order). -/
def aggregateByGroup (data : List Record) (g v : String) (op : Op) : List Record :=
  ((collectGroups data g v).map
      (fun p => mkAggRow g v p.1 (round2 (reduceOp op p.2)))).insertionSort
    (fun a b => rowValue v b ≤ rowValue v a)

/- ### Canonical (spec-side) description of the grouping -/

/-- First-encountered-order deduplication of a list of keys. -/
def dedupFirst : List String → List String
  | [] => []
  | k :: ks => k :: (dedupFirst ks).filter (fun x => x != k)

/-- The valid numeric metric values of the rows falling in group `k`. -/
def groupVals (data : List Record) (g v : String) (k : String) : List ℚ :=
  data.filterMap (fun row =>
    if groupKeyStr row g = k then numVal (getV row v) else none)

/-- The insertion-ordered group map, described directly: the distinct
keys in first-encountered order, each paired with its metric values. -/
def canonGroups (data : List Record) (g v : String) : List (String × List ℚ) :=
  (dedupFirst (data.map (fun r => groupKeyStr r g))).map
    (fun k => (k, groupVals data g v k))

theorem mem_dedupFirst {x : String} : ∀ {l : List String}, x ∈ dedupFirst l ↔ x ∈ l
  | [] => Iff.rfl
  | k :: ks => by
    simp only [dedupFirst, List.mem_cons, List.mem_filter, bne_iff_ne,
      mem_dedupFirst (l := ks)]
    by_cases h : x = k <;> simp [h]

theorem nodup_dedupFirst : ∀ l : List String, (dedupFirst l).Nodup
  | [] => List.nodup_nil
  | k :: ks => by
    simp only [dedupFirst]
    refine List.Nodup.cons ?_ ((nodup_dedupFirst ks).filter _)
    intro hk
    simp [List.mem_filter] at hk

theorem dedupFirst_append_singleton (x : String) :
    ∀ l : List String,
      dedupFirst (l ++ [x]) = dedupFirst l ++ if x ∈ l then [] else [x]
  | [] => by simp [dedupFirst]
  | a :: l => by
    show a :: (dedupFirst (l ++ [x])).filter (fun y => y != a) = _
    rw [dedupFirst_append_singleton x l, List.filter_append]
    by_cases hxl : x ∈ l
    · simp [dedupFirst, hxl]
    · by_cases hxa : x = a
      · simp [dedupFirst, hxl, hxa]
      · simp [dedupFirst, hxl, hxa, Ne.symm hxa]

theorem groupVals_append (d1 d2 : List Record) (g v k : String) :
    groupVals (d1 ++ d2) g v k = groupVals d1 g v k ++ groupVals d2 g v k := by
  simp [groupVals, List.filterMap_append]

theorem groupVals_singleton (r : Record) (g v k : String) :
    groupVals [r] g v k =
      if groupKeyStr r g = k then (numVal (getV r v)).toList else [] := by
  simp only [groupVals, List.filterMap]
  by_cases h : groupKeyStr r g = k
  · simp [h]
    cases numVal (getV r v) <;> simp
  · simp [h]

theorem groupVals_eq_nil_of_not_mem {data : List Record} {g v k : String}
    (h : k ∉ data.map (fun r => groupKeyStr r g)) :
    groupVals data g v k = [] := by
  rw [groupVals, List.filterMap_eq_nil_iff]
  intro r hr
  rw [if_neg]
  intro hk
  exact h (hk ▸ List.mem_map_of_mem (fun r => groupKeyStr r g) hr)

theorem canonGroups_nil (g v : String) : canonGroups [] g v = [] := rfl

theorem canonGroups_keys (hs : List Record) (g v : String) :
    canonGroups hs g v =
      (dedupFirst (hs.map (fun r => groupKeyStr r g))).map
        (fun k => (k, groupVals hs g v k)) := rfl

/-- Key invariant: one grouping-loop step on the canonical map for a
history `hs` of already-processed rows yields the canonical map for
`hs ++ [r]`. -/
theorem aggStep_canon (g v : String) (hs : List Record) (r : Record) :
    aggStep g v (canonGroups hs g v) r = canonGroups (hs ++ [r]) g v := by
  have hmemiff :
      ((canonGroups hs g v).any (fun p => p.1 == groupKeyStr r g) = true) ↔
        groupKeyStr r g ∈ hs.map (fun x => groupKeyStr x g) := by
    simp [canonGroups, List.any_map, Function.comp, mem_dedupFirst]
  have hkeys :
      dedupFirst ((hs ++ [r]).map (fun x => groupKeyStr x g)) =
        dedupFirst (hs.map (fun x => groupKeyStr x g)) ++
          if groupKeyStr r g ∈ hs.map (fun x => groupKeyStr x g) then []
          else [groupKeyStr r g] := by
    rw [List.map_append, List.map_singleton, dedupFirst_append_singleton]
  have hacc1 :
      (if (canonGroups hs g v).any (fun p => p.1 == groupKeyStr r g) then
          canonGroups hs g v
        else canonGroups hs g v ++ [(groupKeyStr r g, [])]) =
        (dedupFirst ((hs ++ [r]).map (fun x => groupKeyStr x g))).map
          (fun k => (k, groupVals hs g v k)) := by
    rw [hkeys, List.map_append]
    by_cases hmem : groupKeyStr r g ∈ hs.map (fun x => groupKeyStr x g)
    · rw [if_pos (hmemiff.mpr hmem), if_pos hmem]
      simp [canonGroups]
    · rw [if_neg (fun hc => hmem (hmemiff.mp hc)), if_neg hmem]
      rw [canonGroups_keys]
      simp [groupVals_eq_nil_of_not_mem hmem]
  have hvals : ∀ k, groupVals (hs ++ [r]) g v k =
      groupVals hs g v k ++
        if groupKeyStr r g = k then (numVal (getV r v)).toList else [] := by
    intro k
    rw [groupVals_append, groupVals_singleton]
  rw [aggStep]
  rcases hq : numVal (getV r v) with _ | q
  · show (if (canonGroups hs g v).any (fun p => p.1 == groupKeyStr r g) then
        canonGroups hs g v
      else canonGroups hs g v ++ [(groupKeyStr r g, [])]) = _
    rw [hacc1, canonGroups_keys]
    refine List.map_congr_left fun k _ => ?_
    rw [hvals k, hq]
    by_cases hk : groupKeyStr r g = k <;> simp [hk]
  · show List.map _ (if (canonGroups hs g v).any (fun p => p.1 == groupKeyStr r g)
        then canonGroups hs g v
        else canonGroups hs g v ++ [(groupKeyStr r g, [])]) = _
    rw [hacc1, canonGroups_keys, List.map_map]
    refine List.map_congr_left fun k _ => ?_
    simp only [Function.comp_apply]
    rw [hvals k, hq]
    by_cases hk : groupKeyStr r g = k
    · rw [if_pos (by simpa using hk.symm), if_pos hk]
      simp
    · rw [if_neg (by simpa using fun h => hk h.symm), if_neg hk]
      simp

theorem foldl_aggStep_canon (g v : String) :
    ∀ (data hs : List Record),
      data.foldl (aggStep g v) (canonGroups hs g v) = canonGroups (hs ++ data) g v
  | [], hs => by simp
  | r :: rs, hs => by
    rw [List.foldl_cons, aggStep_canon, foldl_aggStep_canon g v rs (hs ++ [r])]
    simp

/-- The grouping loop of `aggregateByGroup` computes exactly the
canonical insertion-ordered group map. -/
theorem collectGroups_eq_canon (data : List Record) (g v : String) :
    collectGroups data g v = canonGroups data g v := by
  have h := foldl_aggStep_canon g v data []
  simpa [collectGroups, canonGroups_nil] using h

/-- Specification-side description of the aggregation output before the
sort: one row per distinct observed group key, in first-encountered
order, whose reduced value is computed from exactly the valid numeric
metric values of that group and rounded to 2 decimals. -/
def canonAggRows (data : List Record) (g v : String) (op : Op) : List Record :=
  (dedupFirst (data.map (fun r => groupKeyStr r g))).map
    (fun k => mkAggRow g v k (round2 (reduceOp op (groupVals data g v k))))

theorem aggregateByGroup_eq_sorted_canon (data : List Record) (g v : String) (op : Op) :
    aggregateByGroup data g v op =
      (canonAggRows data g v op).insertionSort
        (fun a b => rowValue v b ≤ rowValue v a) := by
  rw [aggregateByGroup, collectGroups_eq_canon, canonGroups, canonAggRows,
    List.map_map]
  rfl

theorem rowValue_mkAggRow (g v k : String) (val : ℚ) :
    rowValue v (mkAggRow g v k val) = val := by
  by_cases h : g = v
  · simp [mkAggRow, rowValue, getV, h, List.lookup, numVal]
  · have hvg : (v == g) = false := beq_false_of_ne (Ne.symm h)
    simp [mkAggRow, if_neg h, rowValue, getV, List.lookup, hvg, numVal]

theorem round2_natCast (n : ℕ) : round2 (n : ℚ) = (n : ℚ) := by
  rw [round2]
  have h : ⌊(n : ℚ) * 100 + 1 / 2⌋ = (n : ℤ) * 100 := by
    rw [Int.floor_eq_iff]
    constructor
    · push_cast; linarith
    · push_cast; linarith
  rw [h]
  push_cast
  ring

theorem list_sum_map_add {α : Type} (l : List α) (f g : α → ℕ) :
    (l.map (fun x => f x + g x)).sum = (l.map f).sum + (l.map g).sum := by
  induction l with
  | nil => simp
  | cons a l ih => simp [ih]; omega

theorem list_sum_map_single {c : ℕ} {x : String} :
    ∀ {K : List String}, K.Nodup → x ∈ K →
      (K.map (fun k => if x = k then c else 0)).sum = c := by
  intro K
  induction K with
  | nil => simp
  | cons a K ih =>
    intro hnd hmem
    rcases List.mem_cons.mp hmem with h | h
    · subst h
      have : ∀ k ∈ K, (if x = k then c else 0) = 0 := by
        intro k hk
        rw [if_neg]
        intro he
        exact (List.nodup_cons.mp hnd).1 (he ▸ hk)
      simp [List.map_congr_left this]
    · have hxa : x ≠ a := by
        intro he
        exact (List.nodup_cons.mp hnd).1 (he ▸ h)
      simp only [List.map_cons, List.sum_cons, if_neg hxa, Nat.zero_add]
      exact ih (List.nodup_cons.mp hnd).2 h

theorem sum_groupVals_length_gen (g v : String) :
    ∀ (data : List Record) (K : List String), K.Nodup →
      (∀ r ∈ data, groupKeyStr r g ∈ K) →
      (K.map (fun k => (groupVals data g v k).length)).sum
        = (data.filter (fun r => (numVal (getV r v)).isSome)).length := by
  intro data
  induction data with
  | nil => intro K _ _; simp [groupVals]
  | cons r rs ih =>
    intro K hnd hcov
    have hsplit : ∀ k, (groupVals (r :: rs) g v k).length
        = (if groupKeyStr r g = k then (numVal (getV r v)).toList.length else 0)
          + (groupVals rs g v k).length := by
      intro k
      have : groupVals (r :: rs) g v k = groupVals ([r] ++ rs) g v k := rfl
      rw [this, groupVals_append, List.length_append, groupVals_singleton]
      by_cases hk : groupKeyStr r g = k <;> simp [hk]
    have hmap : K.map (fun k => (groupVals (r :: rs) g v k).length)
        = K.map (fun k =>
            (if groupKeyStr r g = k then (numVal (getV r v)).toList.length else 0)
              + (groupVals rs g v k).length) :=
      List.map_congr_left fun k _ => hsplit k
    rw [hmap, list_sum_map_add,
      list_sum_map_single hnd (hcov r (List.mem_cons_self r rs)),
      ih K hnd (fun x hx => hcov x (List.mem_cons_of_mem r hx))]
    rcases hq : numVal (getV r v) with _ | q <;>
      simp [List.filter_cons, hq, Nat.add_comm]

theorem sum_groupVals_length (data : List Record) (g v : String) :
    ((dedupFirst (data.map (fun r => groupKeyStr r g))).map
        (fun k => (groupVals data g v k).length)).sum
      = (data.filter (fun r => (numVal (getV r v)).isSome)).length := by
  refine sum_groupVals_length_gen g v data _ (nodup_dedupFirst _) ?_
  intro r hr
  exact mem_dedupFirst.mpr (List.mem_map_of_mem _ hr)

theorem getV_cons (k1 : String) (v1 : Value) (r : Record) (k : String) :
    getV ((k1, v1) :: r) k = if k = k1 then v1 else getV r k := by
  simp only [getV, List.lookup]
  by_cases h : k = k1
  · simp [h]
  · simp [h, beq_false_of_ne h]

/-- The rows of end-to-end scenario A of the spec. -/
def c1ExampleRows : List Record :=
  [[("region", .str "East"), ("revenue", .num 100)],
   [("region", .str "East"), ("revenue", .num 200)],
   [("region", .str "West"), ("revenue", .num 50)]]

/-- **C1.** For every rows sequence, group column, value column and
operation, `aggregateByGroup` returns exactly one output row per
distinct string-form group key observed (nullish group values mapped to
`"Unknown"` inside `groupKeyStr`), each reduced value computed by the
claimed Sum/Mean/Count rule from only the valid numeric metric values of
that group, rounded to 2 decimals; rows are stably sorted descending by
the reduced value (ties keep first-encountered group order, being the
stable sort of the first-encountered-ordered `canonAggRows`); for Count
the per-group values sum to the number of rows with a numeric metric
value; and scenario A evaluates as claimed. -/
theorem claim_C1_aggregateByGroup (data : List Record) (g v : String) (op : Op) :
    aggregateByGroup data g v op =
        (canonAggRows data g v op).insertionSort
          (fun a b => rowValue v b ≤ rowValue v a)
      ∧ (aggregateByGroup data g v op).length
          = (dedupFirst (data.map (fun r => groupKeyStr r g))).length
      ∧ (aggregateByGroup data g v op).Perm (canonAggRows data g v op)
      ∧ (aggregateByGroup data g v op).Pairwise
          (fun a b => rowValue v b ≤ rowValue v a)
      ∧ (op = .count →
          ((aggregateByGroup data g v op).map (rowValue v)).sum
            = ((data.filter (fun r => (numVal (getV r v)).isSome)).length : ℚ))
      ∧ aggregateByGroup c1ExampleRows "region" "revenue" .sum =
          [[("region", .str "East"), ("revenue", .num 300)],
           [("region", .str "West"), ("revenue", .num 50)]] := by
  haveI instTot : IsTotal Record (fun a b => rowValue v b ≤ rowValue v a) :=
    ⟨fun a b => le_total (rowValue v b) (rowValue v a)⟩
  haveI instTrans : IsTrans Record (fun a b => rowValue v b ≤ rowValue v a) :=
    ⟨fun _ _ _ hab hbc => le_trans hbc hab⟩
  refine ⟨aggregateByGroup_eq_sorted_canon data g v op, ?_, ?_, ?_, ?_, ?_⟩
  · rw [aggregateByGroup_eq_sorted_canon, List.length_insertionSort,
      canonAggRows, List.length_map]
  · rw [aggregateByGroup_eq_sorted_canon]
    exact List.perm_insertionSort _ _
  · rw [aggregateByGroup_eq_sorted_canon]
    exact List.sorted_insertionSort _ _
  · intro hop
    subst hop
    rw [aggregateByGroup_eq_sorted_canon]
    have hperm : ((canonAggRows data g v .count).insertionSort
          (fun a b => rowValue v b ≤ rowValue v a)).map (rowValue v)
          |>.Perm ((canonAggRows data g v .count).map (rowValue v)) :=
      (List.perm_insertionSort _ _).map _
    rw [hperm.sum_eq, canonAggRows, List.map_map]
    have hpt : ∀ k : String,
        ((fun r => rowValue v r) ∘
            fun k => mkAggRow g v k (round2 (reduceOp Op.count (groupVals data g v k)))) k
          = ((groupVals data g v k).length : ℚ) := by
      intro k
      simp only [Function.comp_apply, rowValue_mkAggRow, reduceOp, round2_natCast]
    rw [List.map_congr_left (fun k _ => hpt k), ← sum_groupVals_length data g v,
      Nat.cast_list_sum, List.map_map]
    rfl
  · have hE : round2 (reduceOp .sum
        (groupVals c1ExampleRows "region" "revenue" "East")) = 300 := by
      have h : groupVals c1ExampleRows "region" "revenue" "East" = [100, 200] := by
        decide
      rw [h]; norm_num [reduceOp, round2]
    have hW : round2 (reduceOp .sum
        (groupVals c1ExampleRows "region" "revenue" "West")) = 50 := by
      have h : groupVals c1ExampleRows "region" "revenue" "West" = [50] := by decide
      rw [h]; norm_num [reduceOp, round2]
    have hkeys : dedupFirst
        (c1ExampleRows.map (fun r => groupKeyStr r "region")) = ["East", "West"] := by
      decide
    rw [aggregateByGroup_eq_sorted_canon, canonAggRows, hkeys, List.map_cons,
      List.map_cons, List.map_nil, hE, hW]
    decide

/-- Witness for C1: the Count clause at a concrete dataset (scenario A's
rows, Count over `revenue`): the per-group counts sum to the number of
rows with a numeric `revenue`, namely 3. -/
theorem claim_C1_aggregateByGroup_witness :
    ((aggregateByGroup c1ExampleRows "region" "revenue" .count).map
        (rowValue "revenue")).sum
      = ((c1ExampleRows.filter
          (fun r => (numVal (getV r "revenue")).isSome)).length : ℚ) :=
  (claim_C1_aggregateByGroup c1ExampleRows "region" "revenue" .count).2.2.2.2.1 rfl

/-- Rounding to 3 decimals (`Math.round(x * 1000) / 1000`) on reals. -/
noncomputable def round3R (r : ℝ) : ℝ := (⌊r * 1000 + 1 / 2⌋ : ℝ) / 1000

/-- The deviation pairs of `pearsonCorrelation`'s loop: for each paired
sample, `(x[i] - meanX, y[i] - meanY)`; the source computes both means
with `n = x.length` as divisor. -/
def pcDeviations (x y : List ℚ) : List (ℚ × ℚ) :=
  (x.zip y).map (fun p => (p.1 - x.sum / x.length, p.2 - y.sum / x.length))

/-- `numerator`: `Σ dx·dy`. -/
def pcNumerator (x y : List ℚ) : ℚ :=
  ((pcDeviations x y).map (fun p => p.1 * p.2)).sum

/-- `denomX`: `Σ dx·dx`. -/
def pcDenomX (x y : List ℚ) : ℚ :=
  ((pcDeviations x y).map (fun p => p.1 * p.1)).sum

/-- `denomY`: `Σ dy·dy`. -/
def pcDenomY (x y : List ℚ) : ℚ :=
  ((pcDeviations x y).map (fun p => p.2 * p.2)).sum

open Classical in
/-- `pearsonCorrelation(x, y)` of the data analysis utility: `0` for
fewer than 3 samples, `0` when `sqrt(denomX·denomY)` is zero, otherwise
`numerator / sqrt(denomX·denomY)` rounded to 3 decimals. (The source
indexes `y[i]` for `i < x.length`; this embedding is faithful for
equal-length inputs, the only way the analyzer calls it.) -/
noncomputable def pearsonCorrelation (x y : List ℚ) : ℝ :=
  if x.length < 3 then 0
  else
    let denom := Real.sqrt ((pcDenomX x y * pcDenomY x y : ℚ) : ℝ)
    if denom = 0 then 0 else round3R ((pcNumerator x y : ℝ) / denom)

theorem pcDeviations_swap (x y : List ℚ) (h : x.length = y.length) :
    pcDeviations y x = (pcDeviations x y).map Prod.swap := by
  rw [pcDeviations, pcDeviations, ← List.zip_swap x y, List.map_map, List.map_map]
  refine List.map_congr_left fun p _ => ?_
  simp [Prod.swap, h]

theorem pcNumerator_symm (x y : List ℚ) (h : x.length = y.length) :
    pcNumerator y x = pcNumerator x y := by
  rw [pcNumerator, pcDeviations_swap x y h, List.map_map, pcNumerator]
  refine congrArg List.sum (List.map_congr_left fun p _ => ?_)
  exact mul_comm p.2 p.1

theorem pcDenomX_symm (x y : List ℚ) (h : x.length = y.length) :
    pcDenomX y x = pcDenomY x y := by
  rw [pcDenomX, pcDeviations_swap x y h, List.map_map, pcDenomY]
  rfl

theorem pcDenomY_symm (x y : List ℚ) (h : x.length = y.length) :
    pcDenomY y x = pcDenomX x y := by
  rw [pcDenomY, pcDeviations_swap x y h, List.map_map, pcDenomX]
  rfl

theorem pc_cauchy (x y : List ℚ) :
    pcNumerator x y ^ 2 ≤ pcDenomX x y * pcDenomY x y := by
  rw [pcNumerator, pcDenomX, pcDenomY, ← Fin.sum_univ_get', ← Fin.sum_univ_get',
    ← Fin.sum_univ_get']
  have h := Finset.sum_mul_sq_le_sq_mul_sq Finset.univ
    (fun i : Fin (pcDeviations x y).length => (pcDeviations x y)[i.1].1)
    (fun i : Fin (pcDeviations x y).length => (pcDeviations x y)[i.1].2)
  simpa [sq] using h

theorem pcDenomX_nonneg (x y : List ℚ) : 0 ≤ pcDenomX x y := by
  refine List.sum_nonneg ?_
  intro a ha
  rcases List.mem_map.mp ha with ⟨p, _, hp⟩
  exact hp ▸ mul_self_nonneg p.1

theorem pcDenomY_nonneg (x y : List ℚ) : 0 ≤ pcDenomY x y := by
  refine List.sum_nonneg ?_
  intro a ha
  rcases List.mem_map.mp ha with ⟨p, _, hp⟩
  exact hp ▸ mul_self_nonneg p.2

theorem round3R_mem_Icc {r : ℝ} (h1 : -1 ≤ r) (h2 : r ≤ 1) :
    -1 ≤ round3R r ∧ round3R r ≤ 1 := by
  constructor
  · have hf : (-1000 : ℤ) ≤ ⌊r * 1000 + 1 / 2⌋ := by
      rw [Int.le_floor]
      push_cast
      linarith
    rw [round3R]
    have : (-1000 : ℝ) ≤ (⌊r * 1000 + 1 / 2⌋ : ℝ) := by exact_mod_cast hf
    linarith
  · have hf : ⌊r * 1000 + 1 / 2⌋ < 1001 := by
      rw [Int.floor_lt]
      push_cast
      linarith
    have : (⌊r * 1000 + 1 / 2⌋ : ℝ) ≤ 1000 := by
      exact_mod_cast Int.lt_add_one_iff.mp hf
    rw [round3R]
    linarith

open Classical in
theorem pearsonCorrelation_eq_cases (x y : List ℚ) :
    pearsonCorrelation x y =
      if x.length < 3 then 0
      else if Real.sqrt ((pcDenomX x y * pcDenomY x y : ℚ) : ℝ) = 0 then 0
      else round3R ((pcNumerator x y : ℝ) /
        Real.sqrt ((pcDenomX x y * pcDenomY x y : ℚ) : ℝ)) := rfl

/-- **C2.** For equal-length numeric inputs, `pearsonCorrelation` is
symmetric, always lies in `[-1, 1]`, returns exactly `0` for fewer than
3 paired samples and when `sqrt(Σdx²·Σdy²)` is `0`, and otherwise equals
`Σ(dx·dy)/sqrt(Σdx²·Σdy²)` over deviations from the paired-subset means,
rounded to 3 decimals. -/
theorem claim_C2_pearsonCorrelation (x y : List ℚ) (h : x.length = y.length) :
    pearsonCorrelation x y = pearsonCorrelation y x
      ∧ -1 ≤ pearsonCorrelation x y ∧ pearsonCorrelation x y ≤ 1
      ∧ (x.length < 3 → pearsonCorrelation x y = 0)
      ∧ (Real.sqrt ((pcDenomX x y * pcDenomY x y : ℚ) : ℝ) = 0 →
          pearsonCorrelation x y = 0)
      ∧ (3 ≤ x.length →
          Real.sqrt ((pcDenomX x y * pcDenomY x y : ℚ) : ℝ) ≠ 0 →
          pearsonCorrelation x y =
            round3R ((pcNumerator x y : ℝ) /
              Real.sqrt ((pcDenomX x y * pcDenomY x y : ℚ) : ℝ))) := by
  have hsym : pearsonCorrelation x y = pearsonCorrelation y x := by
    rw [pearsonCorrelation_eq_cases, pearsonCorrelation_eq_cases,
      pcNumerator_symm x y h, pcDenomX_symm x y h, pcDenomY_symm x y h,
      mul_comm (pcDenomY x y) (pcDenomX x y), h]
  have hbounds : -1 ≤ pearsonCorrelation x y ∧ pearsonCorrelation x y ≤ 1 := by
    rw [pearsonCorrelation_eq_cases]
    by_cases h3 : x.length < 3
    · rw [if_pos h3]; norm_num
    · rw [if_neg h3]
      by_cases hd : Real.sqrt ((pcDenomX x y * pcDenomY x y : ℚ) : ℝ) = 0
      · rw [if_pos hd]; norm_num
      · rw [if_neg hd]
        have hpos : 0 < Real.sqrt ((pcDenomX x y * pcDenomY x y : ℚ) : ℝ) :=
          lt_of_le_of_ne (Real.sqrt_nonneg _) (Ne.symm hd)
        have hcs : ((pcNumerator x y : ℝ)) ^ 2
            ≤ ((pcDenomX x y * pcDenomY x y : ℚ) : ℝ) := by
          have := pc_cauchy x y
          push_cast
          exact_mod_cast this
        have habs : |(pcNumerator x y : ℝ)|
            ≤ Real.sqrt ((pcDenomX x y * pcDenomY x y : ℚ) : ℝ) := by
          rw [← Real.sqrt_sq_eq_abs]
          exact Real.sqrt_le_sqrt hcs
        have hdiv : |(pcNumerator x y : ℝ) /
            Real.sqrt ((pcDenomX x y * pcDenomY x y : ℚ) : ℝ)| ≤ 1 := by
          rw [abs_div, abs_of_nonneg (Real.sqrt_nonneg _), div_le_one hpos]
          exact habs
        rcases abs_le.mp hdiv with ⟨hlo, hhi⟩
        exact round3R_mem_Icc hlo hhi
  refine ⟨hsym, hbounds.1, hbounds.2, ?_, ?_, ?_⟩
  · intro h3
    rw [pearsonCorrelation_eq_cases, if_pos h3]
  · intro hd
    rw [pearsonCorrelation_eq_cases]
    by_cases h3 : x.length < 3
    · rw [if_pos h3]
    · rw [if_neg h3, if_pos hd]
  · intro h3 hd
    rw [pearsonCorrelation_eq_cases, if_neg (by omega), if_neg hd]

/-- Witness for C2 at `x = [1,2,3]`, `y = [2,4,6]` (equal lengths). -/
theorem claim_C2_pearsonCorrelation_witness :
    pearsonCorrelation [1, 2, 3] [2, 4, 6] = pearsonCorrelation [2, 4, 6] [1, 2, 3]
      ∧ -1 ≤ pearsonCorrelation [1, 2, 3] [2, 4, 6]
      ∧ pearsonCorrelation [1, 2, 3] [2, 4, 6] ≤ 1
      ∧ (([1, 2, 3] : List ℚ).length < 3 →
          pearsonCorrelation [1, 2, 3] [2, 4, 6] = 0)
      ∧ (Real.sqrt ((pcDenomX [1, 2, 3] [2, 4, 6] * pcDenomY [1, 2, 3] [2, 4, 6] : ℚ) : ℝ) = 0 →
          pearsonCorrelation [1, 2, 3] [2, 4, 6] = 0)
      ∧ (3 ≤ ([1, 2, 3] : List ℚ).length →
          Real.sqrt ((pcDenomX [1, 2, 3] [2, 4, 6] * pcDenomY [1, 2, 3] [2, 4, 6] : ℚ) : ℝ) ≠ 0 →
          pearsonCorrelation [1, 2, 3] [2, 4, 6] =
            round3R ((pcNumerator [1, 2, 3] [2, 4, 6] : ℝ) /
              Real.sqrt ((pcDenomX [1, 2, 3] [2, 4, 6] * pcDenomY [1, 2, 3] [2, 4, 6] : ℚ) : ℝ))) :=
  claim_C2_pearsonCorrelation [1, 2, 3] [2, 4, 6] rfl

/- ### Column Profiler: numeric statistics -/

/-- `Math.round(x * 100) / 100` on reals (for the `stdDev` field). -/
noncomputable def round2R (r : ℝ) : ℝ := (⌊r * 100 + 1 / 2⌋ : ℝ) / 100

/-- The valid numeric values of a column:
`data.map(row => row[column]).filter(v => typeof v === "number" && !isNaN(v))`. -/
def numericValues (data : List Record) (col : String) : List ℚ :=
  (data.map (fun r => getV r col)).filterMap numVal

/-- `[...values].sort((a, b) => a - b)`. -/
def sortedNumericValues (data : List Record) (col : String) : List ℚ :=
  (numericValues data col).insertionSort (· ≤ ·)

/-- `mean = sum / values.length`. -/
def rawMeanOf (data : List Record) (col : String) : ℚ :=
  (numericValues data col).sum / (numericValues data col).length

/-- The un-rounded median: mean of the two central elements of the
sorted values for even counts, the central element for odd counts. -/
def rawMedianOf (data : List Record) (col : String) : ℚ :=
  let n := (numericValues data col).length
  let sorted := sortedNumericValues data col
  if n % 2 = 0 then (sorted.getD (n / 2 - 1) 0 + sorted.getD (n / 2) 0) / 2
  else sorted.getD (n / 2) 0

/-- `variance = Σ (v - mean)² / values.length` (population variance). -/
def varianceOf (data : List Record) (col : String) : ℚ :=
  ((numericValues data col).map (fun v => (v - rawMeanOf data col) ^ 2)).sum
    / (numericValues data col).length

/-- The numeric statistics block of `ColumnStats` (all present together,
as produced by `computeNumericStats` when at least one value exists). -/
structure NumericStats where
  min : ℚ
  max : ℚ
  mean : ℚ
  median : ℚ
  sum : ℚ
  stdDev : ℝ

/-- `computeNumericStats(data, column)`: `{}` (here `none`) when the
column has no valid numeric value, otherwise min/max (un-rounded),
mean/median/sum rounded to 2 decimals, and the population standard
deviation rounded to 2 decimals. -/
noncomputable def computeNumericStats (data : List Record) (col : String) :
    Option NumericStats :=
  if (numericValues data col).length = 0 then none
  else
    some
      { min := (sortedNumericValues data col).getD 0 0
        max := (sortedNumericValues data col).getD
          ((sortedNumericValues data col).length - 1) 0
        mean := round2 (rawMeanOf data col)
        median := round2 (rawMedianOf data col)
        sum := round2 (numericValues data col).sum
        stdDev := round2R (Real.sqrt ((varianceOf data col : ℚ) : ℝ)) }

theorem computeNumericStats_eq_some {data : List Record} {col : String}
    (h : numericValues data col ≠ []) :
    computeNumericStats data col =
      some
        { min := (sortedNumericValues data col).getD 0 0
          max := (sortedNumericValues data col).getD
            ((sortedNumericValues data col).length - 1) 0
          mean := round2 (rawMeanOf data col)
          median := round2 (rawMedianOf data col)
          sum := round2 (numericValues data col).sum
          stdDev := round2R (Real.sqrt ((varianceOf data col : ℚ) : ℝ)) } := by
  rw [computeNumericStats, if_neg]
  simpa using h

theorem computeNumericStats_eq_none {data : List Record} {col : String}
    (h : numericValues data col = []) :
    computeNumericStats data col = none := by
  rw [computeNumericStats, if_pos]
  simp [h]

theorem sorted_getD_mono {l : List ℚ} (h : l.Pairwise (· ≤ ·)) {i j : ℕ}
    (hij : i ≤ j) (hj : j < l.length) : l.getD i 0 ≤ l.getD j 0 := by
  rw [List.getD_eq_getElem l 0 (lt_of_le_of_lt hij hj), List.getD_eq_getElem l 0 hj]
  rcases Nat.lt_or_ge i j with hlt | hge
  · exact List.pairwise_iff_getElem.mp h i j (lt_of_le_of_lt hij hj) hj hlt
  · have heq : i = j := le_antisymm hij hge
    subst heq
    rfl

theorem round2_le_add (q : ℚ) : round2 q ≤ q + 1 / 200 := by
  rw [round2]
  have h := Int.floor_le (q * 100 + 1 / 2)
  have h100 : (0 : ℚ) < 100 := by norm_num
  rw [div_le_iff₀ h100]
  linarith

theorem round2_gt_sub (q : ℚ) : q - 1 / 200 < round2 q := by
  rw [round2]
  have h := Int.sub_one_lt_floor (q * 100 + 1 / 2)
  have h100 : (0 : ℚ) < 100 := by norm_num
  rw [lt_div_iff₀ h100]
  linarith

theorem sortedNumericValues_length (data : List Record) (col : String) :
    (sortedNumericValues data col).length = (numericValues data col).length := by
  rw [sortedNumericValues, List.length_insertionSort]

theorem sortedNumericValues_sorted (data : List Record) (col : String) :
    (sortedNumericValues data col).Pairwise (· ≤ ·) :=
  List.sorted_insertionSort _ _

theorem rawMedianOf_bounds {data : List Record} {col : String}
    (h : numericValues data col ≠ []) :
    (sortedNumericValues data col).getD 0 0 ≤ rawMedianOf data col
      ∧ rawMedianOf data col ≤ (sortedNumericValues data col).getD
          ((sortedNumericValues data col).length - 1) 0 := by
  have hlen := sortedNumericValues_length data col
  have hsor := sortedNumericValues_sorted data col
  have hn : 0 < (numericValues data col).length := List.length_pos.mpr h
  set n := (numericValues data col).length with hndef
  rw [rawMedianOf]
  by_cases hpar : n % 2 = 0
  · have hn2 : 2 ≤ n := by omega
    have hi1 : n / 2 - 1 < (sortedNumericValues data col).length := by omega
    have hi2 : n / 2 < (sortedNumericValues data col).length := by omega
    simp only [if_pos hpar]
    constructor
    · have b1 : (sortedNumericValues data col).getD 0 0
          ≤ (sortedNumericValues data col).getD (n / 2 - 1) 0 :=
        sorted_getD_mono hsor (Nat.zero_le _) hi1
      have b2 : (sortedNumericValues data col).getD 0 0
          ≤ (sortedNumericValues data col).getD (n / 2) 0 :=
        sorted_getD_mono hsor (Nat.zero_le _) hi2
      linarith
    · have b1 : (sortedNumericValues data col).getD (n / 2 - 1) 0
          ≤ (sortedNumericValues data col).getD
            ((sortedNumericValues data col).length - 1) 0 :=
        sorted_getD_mono hsor (by omega) (by omega)
      have b2 : (sortedNumericValues data col).getD (n / 2) 0
          ≤ (sortedNumericValues data col).getD
            ((sortedNumericValues data col).length - 1) 0 :=
        sorted_getD_mono hsor (by omega) (by omega)
      linarith
  · have hi : n / 2 < (sortedNumericValues data col).length := by omega
    simp only [if_neg hpar]
    exact ⟨sorted_getD_mono hsor (Nat.zero_le _) hi,
      sorted_getD_mono hsor (by omega) (by omega)⟩

theorem round2R_nonneg {r : ℝ} (h : 0 ≤ r) : 0 ≤ round2R r := by
  rw [round2R]
  have hf : (0 : ℤ) ≤ ⌊r * 100 + 1 / 2⌋ := by
    rw [Int.le_floor]
    push_cast
    linarith
  have : (0 : ℝ) ≤ (⌊r * 100 + 1 / 2⌋ : ℝ) := by exact_mod_cast hf
  linarith

theorem round2R_zero : round2R 0 = 0 := by
  rw [round2R]
  norm_num

theorem list_sum_sq_eq_zero_iff (m : ℚ) :
    ∀ l : List ℚ, ((l.map (fun v => (v - m) ^ 2)).sum = 0 ↔ ∀ v ∈ l, v = m)
  | [] => by simp
  | a :: l => by
    rw [List.map_cons, List.sum_cons]
    have h1 : (0 : ℚ) ≤ (a - m) ^ 2 := sq_nonneg _
    have h2 : (0 : ℚ) ≤ (l.map (fun v => (v - m) ^ 2)).sum := by
      refine List.sum_nonneg ?_
      intro x hx
      rcases List.mem_map.mp hx with ⟨v, _, hv⟩
      exact hv ▸ sq_nonneg _
    rw [add_eq_zero_iff_of_nonneg h1 h2, list_sum_sq_eq_zero_iff m l]
    constructor
    · rintro ⟨hz, hrest⟩
      have ha : a = m := by
        have := pow_eq_zero_iff (n := 2) (by norm_num) |>.mp hz
        linarith [sub_eq_zero.mp this]
      intro v hv
      rcases List.mem_cons.mp hv with rfl | hv
      · exact ha
      · exact hrest v hv
    · intro hall
      refine ⟨?_, fun v hv => hall v (List.mem_cons_of_mem a hv)⟩
      have := hall a (List.mem_cons_self a l)
      rw [this]
      ring

theorem varianceOf_nonneg (data : List Record) (col : String) :
    0 ≤ varianceOf data col := by
  rw [varianceOf]
  refine div_nonneg ?_ (by positivity)
  refine List.sum_nonneg ?_
  intro x hx
  rcases List.mem_map.mp hx with ⟨v, _, hv⟩
  exact hv ▸ sq_nonneg _

theorem varianceOf_eq_zero_iff {data : List Record} {col : String}
    (h : numericValues data col ≠ []) :
    varianceOf data col = 0
      ↔ ∀ a ∈ numericValues data col, ∀ b ∈ numericValues data col, a = b := by
  have hn : (0 : ℚ) < (numericValues data col).length := by
    exact_mod_cast List.length_pos.mpr h
  rw [varianceOf, div_eq_zero_iff]
  have hn2 : ((numericValues data col).length : ℚ) ≠ 0 := ne_of_gt hn
  rw [or_iff_left hn2, list_sum_sq_eq_zero_iff]
  constructor
  · intro hall a ha b hb
    rw [hall a ha, hall b hb]
  · intro hid
    obtain ⟨c, hc⟩ := List.exists_mem_of_ne_nil _ h
    have hallc : ∀ v ∈ numericValues data col, v = c := fun v hv => hid v hv c hc
    have hmean : rawMeanOf data col = c := by
      rw [rawMeanOf, List.sum_eq_card_nsmul _ c hallc, nsmul_eq_mul,
        mul_comm, mul_div_assoc, div_self hn2, mul_one]
    intro v hv
    rw [hmean]
    exact hallc v hv

/-- **C6 (amended).** For every numeric column with at least one valid
numeric value, the profiled statistics satisfy `min ≤ max`, the median
lies between `min` and `max` up to the median's own 2-decimal rounding
(`min − 0.005 < median ≤ max + 0.005`; the claim's plain
`min ≤ median ≤ max` fails because the median is rounded while min/max
are not), and `sum ≈ mean × count` within the accumulated 2-decimal
rounding tolerance `|sum − mean·count| < (count+1)·0.005`. -/
theorem claim_C6_numeric_stat_relations (data : List Record) (col : String)
    (h : numericValues data col ≠ []) :
    ∃ s, computeNumericStats data col = some s
      ∧ s.min ≤ s.max
      ∧ s.min - 1 / 200 < s.median
      ∧ s.median ≤ s.max + 1 / 200
      ∧ |s.sum - s.mean * (numericValues data col).length|
          < (((numericValues data col).length : ℚ) + 1) / 200 := by
  have hlen := sortedNumericValues_length data col
  have hn : 0 < (numericValues data col).length := List.length_pos.mpr h
  have hmed := rawMedianOf_bounds h
  refine ⟨_, computeNumericStats_eq_some h, ?_, ?_, ?_, ?_⟩
  · exact sorted_getD_mono (sortedNumericValues_sorted data col)
      (Nat.zero_le _) (by omega)
  · have h1 := round2_gt_sub (rawMedianOf data col)
    show (sortedNumericValues data col).getD 0 0 - 1 / 200
      < round2 (rawMedianOf data col)
    linarith [hmed.1]
  · have h1 := round2_le_add (rawMedianOf data col)
    show round2 (rawMedianOf data col)
      ≤ (sortedNumericValues data col).getD
          ((sortedNumericValues data col).length - 1) 0 + 1 / 200
    linarith [hmed.2]
  · show |round2 (numericValues data col).sum
        - round2 (rawMeanOf data col) * (numericValues data col).length|
      < (((numericValues data col).length : ℚ) + 1) / 200
    set S := (numericValues data col).sum with hS
    set nq : ℚ := ((numericValues data col).length : ℚ) with hnq
    have hnpos : (0 : ℚ) < nq := by rw [hnq]; exact_mod_cast hn
    have hmean : rawMeanOf data col = S / nq := rfl
    have hs1 := round2_le_add S
    have hs2 := round2_gt_sub S
    have hm1 := round2_le_add (S / nq)
    have hm2 := round2_gt_sub (S / nq)
    have hmul1 : round2 (S / nq) * nq ≤ (S / nq + 1 / 200) * nq :=
      mul_le_mul_of_nonneg_right hm1 (le_of_lt hnpos)
    have hmul2 : (S / nq - 1 / 200) * nq < round2 (S / nq) * nq :=
      mul_lt_mul_of_pos_right hm2 hnpos
    have he1 : (S / nq + 1 / 200) * nq = S + nq / 200 := by
      field_simp
      ring
    have he2 : (S / nq - 1 / 200) * nq = S - nq / 200 := by
      field_simp
      ring
    rw [hmean, abs_lt]
    constructor
    · linarith
    · linarith

/-- The single-row dataset whose only `c` value is `1.004`. -/
def c6Rows : List Record := [[("c", .num (1004 / 1000))]]

/-- Counterexample to C6 as stated: on value `1.004` the reported
median is rounded to `1` while the reported min stays `1.004`, so
`min ≤ median` fails. -/
theorem claim_C6_counterexample :
    ∃ s, computeNumericStats c6Rows "c" = some s ∧ ¬ s.min ≤ s.median := by
  refine ⟨_, computeNumericStats_eq_some (by decide), ?_⟩
  show ¬ (sortedNumericValues c6Rows "c").getD 0 0 ≤ round2 (rawMedianOf c6Rows "c")
  have h1 : (sortedNumericValues c6Rows "c").getD 0 0 = 1004 / 1000 := rfl
  have h2 : rawMedianOf c6Rows "c" = 1004 / 1000 := rfl
  rw [h1, h2, round2]
  norm_num

/-- Witness for C6 (amended) at the one-value dataset `c6Rows`. -/
theorem claim_C6_numeric_stat_relations_witness :
    ∃ s, computeNumericStats c6Rows "c" = some s
      ∧ s.min ≤ s.max
      ∧ s.min - 1 / 200 < s.median
      ∧ s.median ≤ s.max + 1 / 200
      ∧ |s.sum - s.mean * (numericValues c6Rows "c").length|
          < (((numericValues c6Rows "c").length : ℚ) + 1) / 200 :=
  claim_C6_numeric_stat_relations c6Rows "c" (by decide)

/-- **C7 (amended).** For every numeric column with at least one valid
numeric value the reported population standard deviation is `≥ 0`; it
equals `0` whenever all sampled values are identical; and the
*un-rounded* standard deviation `sqrt(variance)` is `0` iff all sampled
values are identical. (The claim's converse direction for the reported
value fails: 2-decimal rounding can report `0` for non-identical values
— see the counterexample.) -/
theorem claim_C7_stdDev (data : List Record) (col : String)
    (h : numericValues data col ≠ []) :
    ∃ s, computeNumericStats data col = some s
      ∧ 0 ≤ s.stdDev
      ∧ ((∀ a ∈ numericValues data col, ∀ b ∈ numericValues data col, a = b) →
          s.stdDev = 0)
      ∧ (Real.sqrt ((varianceOf data col : ℚ) : ℝ) = 0
          ↔ ∀ a ∈ numericValues data col, ∀ b ∈ numericValues data col, a = b) := by
  have hsqrt_iff : Real.sqrt ((varianceOf data col : ℚ) : ℝ) = 0
      ↔ varianceOf data col = 0 := by
    rw [Real.sqrt_eq_zero']
    constructor
    · intro hle
      have hle2 : varianceOf data col ≤ 0 := by exact_mod_cast hle
      exact le_antisymm hle2 (varianceOf_nonneg data col)
    · intro h0
      rw [h0]
      norm_num
  refine ⟨_, computeNumericStats_eq_some h, ?_, ?_, ?_⟩
  · exact round2R_nonneg (Real.sqrt_nonneg _)
  · intro hid
    show round2R (Real.sqrt ((varianceOf data col : ℚ) : ℝ)) = 0
    have hv : varianceOf data col = 0 := (varianceOf_eq_zero_iff h).mpr hid
    rw [hv]
    norm_num [Real.sqrt_zero, round2R_zero]
  · rw [hsqrt_iff]
    exact varianceOf_eq_zero_iff h

/-- Two distinct values `0` and `0.008` whose standard deviation `0.004`
rounds to `0` at 2 decimals. -/
def c7Rows : List Record := [[("c", .num 0)], [("c", .num (8 / 1000))]]

/-- Counterexample to C7 as stated: the reported (rounded) standard
deviation is `0` although the sampled values are not all identical. -/
theorem claim_C7_counterexample :
    ∃ s, computeNumericStats c7Rows "c" = some s ∧ s.stdDev = 0
      ∧ ¬ (∀ a ∈ numericValues c7Rows "c",
            ∀ b ∈ numericValues c7Rows "c", a = b) := by
  have hvals : numericValues c7Rows "c" = [0, 8 / 1000] := rfl
  have hvar : varianceOf c7Rows "c" = 16 / 1000000 := by
    rw [varianceOf, rawMeanOf, hvals]
    norm_num [List.sum_cons, List.sum_nil]
  refine ⟨_, computeNumericStats_eq_some (by decide), ?_, ?_⟩
  · show round2R (Real.sqrt ((varianceOf c7Rows "c" : ℚ) : ℝ)) = 0
    rw [hvar]
    have hc : ((16 / 1000000 : ℚ) : ℝ) = (4 / 1000 : ℝ) ^ 2 := by norm_num
    rw [hc, Real.sqrt_sq (by norm_num : (0 : ℝ) ≤ 4 / 1000), round2R]
    have hf : ⌊(4 / 1000 : ℝ) * 100 + 1 / 2⌋ = 0 := by
      rw [Int.floor_eq_zero_iff]
      constructor <;> norm_num
    rw [hf]
    norm_num
  · intro hall
    have h1 : (0 : ℚ) ∈ numericValues c7Rows "c" := by rw [hvals]; simp
    have h2 : (8 / 1000 : ℚ) ∈ numericValues c7Rows "c" := by rw [hvals]; simp
    have := hall 0 h1 (8 / 1000) h2
    norm_num at this

/-- Witness for C7 (amended) at the one-value dataset `c6Rows`. -/
theorem claim_C7_stdDev_witness :
    ∃ s, computeNumericStats c6Rows "c" = some s
      ∧ 0 ≤ s.stdDev
      ∧ ((∀ a ∈ numericValues c6Rows "c", ∀ b ∈ numericValues c6Rows "c", a = b) →
          s.stdDev = 0)
      ∧ (Real.sqrt ((varianceOf c6Rows "c" : ℚ) : ℝ) = 0
          ↔ ∀ a ∈ numericValues c6Rows "c", ∀ b ∈ numericValues c6Rows "c", a = b) :=
  claim_C7_stdDev c6Rows "c" (by decide)

/- ### Column Profiler: categorical statistics -/

/-- One step of `computeCategoricalStats`' counting loop:
`counts.set(val, (counts.get(val) ?? 0) + 1)` on the insertion-ordered
map. -/
def bumpCount (acc : List (String × ℕ)) (val : String) : List (String × ℕ) :=
  if acc.any (fun p => p.1 == val) then
    acc.map (fun p => if p.1 == val then (p.1, p.2 + 1) else p)
  else acc ++ [(val, 1)]

/-- The string form of every cell of the column:
`String(row[column] ?? "null")`. -/
def catValStrings (data : List Record) (col : String) : List String :=
  data.map (fun r => jsStringD (getV r col) "null")

/-- The frequency map of `computeCategoricalStats` after the loop. -/
def catCounts (data : List Record) (col : String) : List (String × ℕ) :=
  data.foldl (fun acc row => bumpCount acc (jsStringD (getV row col) "null")) []

/-- `computeCategoricalStats(data, column)`: frequency counts, sorted
descending by count (stable), restricted to the first 10 entries. -/
def computeCategoricalStats (data : List Record) (col : String) :
    List (String × ℕ) :=
  ((catCounts data col).insertionSort (fun a b => b.2 ≤ a.2)).take 10

/-- Spec-side description of the frequency map: distinct value strings
in first-encountered order, each with its occurrence count. -/
def countsOf (l : List String) : List (String × ℕ) :=
  (dedupFirst l).map (fun s => (s, l.count s))

theorem bumpCount_canon (l : List String) (x : String) :
    bumpCount (countsOf l) x = countsOf (l ++ [x]) := by
  have hmemiff : ((countsOf l).any (fun p => p.1 == x) = true) ↔ x ∈ l := by
    simp [countsOf, List.any_map, Function.comp, mem_dedupFirst]
  have hkeys := dedupFirst_append_singleton x l
  have hcount : ∀ s, (l ++ [x]).count s = l.count s + if x = s then 1 else 0 := by
    intro s
    rw [List.count_append]
    by_cases hs : x = s
    · simp [hs, List.count_singleton, if_pos rfl]
    · have : s ≠ x := fun hc => hs hc.symm
      simp [List.count_singleton, hs, beq_false_of_ne this]
  rw [bumpCount]
  by_cases hmem : x ∈ l
  · rw [if_pos (hmemiff.mpr hmem), countsOf, countsOf, hkeys, if_pos hmem,
      List.append_nil, List.map_map]
    refine List.map_congr_left fun s _ => ?_
    simp only [Function.comp_apply]
    by_cases hsx : s = x
    · rw [if_pos (by simpa using hsx), hcount, if_pos hsx.symm]
    · rw [if_neg (by simpa using hsx), hcount,
        if_neg (fun hc => hsx hc.symm), Nat.add_zero]
  · rw [if_neg (fun hc => hmem (hmemiff.mp hc)), countsOf, countsOf, hkeys,
      if_neg hmem, List.map_append]
    congr 1
    · refine List.map_congr_left fun s hs => ?_
      have hsx : x ≠ s := by
        intro hc
        exact hmem (hc ▸ mem_dedupFirst.mp hs)
      rw [hcount, if_neg hsx, Nat.add_zero]
    · have hcx : l.count x = 0 := List.count_eq_zero.mpr hmem
      simp [hcount, hcx]

theorem foldl_bumpCount_canon :
    ∀ (l hs : List String), l.foldl bumpCount (countsOf hs) = countsOf (hs ++ l)
  | [], hs => by simp
  | x :: l, hs => by
    rw [List.foldl_cons, bumpCount_canon, foldl_bumpCount_canon l (hs ++ [x])]
    simp

theorem catCounts_eq_canon (data : List Record) (col : String) :
    catCounts data col = countsOf (catValStrings data col) := by
  have h1 : catCounts data col = (catValStrings data col).foldl bumpCount [] := by
    rw [catCounts, catValStrings, List.foldl_map]
  rw [h1]
  have h2 := foldl_bumpCount_canon (catValStrings data col) []
  simpa [countsOf, dedupFirst] using h2

/-- **C8 (amended).** For every column, `computeCategoricalStats` counts
frequencies over the string form of every value with null/missing values
mapped to the literal token `"null"` (an empty-string value, however, is
counted under its own empty-string key, not under `"null"` — the claim's
"null/empty" fails, see the counterexample), ranks the (value, count)
pairs descending by count with ties kept in first-encountered order
(the stable sort of the first-encountered-ordered `countsOf`), and
returns at most the top 10 pairs. -/
theorem claim_C8_computeCategoricalStats (data : List Record) (col : String) :
    computeCategoricalStats data col
        = ((countsOf (catValStrings data col)).insertionSort
            (fun a b => b.2 ≤ a.2)).take 10
      ∧ (computeCategoricalStats data col).length ≤ 10
      ∧ (computeCategoricalStats data col).Pairwise (fun a b => b.2 ≤ a.2)
      ∧ jsStringD .null "null" = "null" := by
  haveI instTot : IsTotal (String × ℕ) (fun a b => b.2 ≤ a.2) :=
    ⟨fun a b => le_total b.2 a.2⟩
  haveI instTrans : IsTrans (String × ℕ) (fun a b => b.2 ≤ a.2) :=
    ⟨fun _ _ _ hab hbc => le_trans hbc hab⟩
  refine ⟨?_, ?_, ?_, rfl⟩
  · rw [computeCategoricalStats, catCounts_eq_canon]
  · rw [computeCategoricalStats]
    exact le_trans (List.length_take_le 10 _) (le_refl 10)
  · rw [computeCategoricalStats]
    exact List.Pairwise.sublist (List.take_sublist 10 _) (List.sorted_insertionSort _ _)

/-- A dataset whose only `c` value is the empty string. -/
def c8Rows : List Record := [[("c", .str "")]]

/-- Counterexample to C8 as stated: an empty-string value is counted
under the empty-string key, not mapped to the `"null"` token. -/
theorem claim_C8_counterexample :
    computeCategoricalStats c8Rows "c" = [("", 1)] ∧ ("" : String) ≠ "null" := by
  constructor
  · rfl
  · decide

/- ### Profile Builder: data model and `analyzeDataset` -/

/-- The inferred column type: `"number" | "string" | "date"`. -/
inductive ColType
  | num | str | date
deriving DecidableEq, Repr

/-- `AggregationResult` of the data analysis utility. -/
structure AggregationResult where
  description : String
  groupBy : String
  metric : String
  operation : Op
  data : List Record
deriving DecidableEq, Repr

/-- `CorrelationResult` of the data analysis utility. -/
structure CorrelationResult where
  xColumn : String
  yColumn : String
  correlation : ℝ
  scatterData : List (ℚ × ℚ)

/-- `ColumnStats` of the data analysis utility. The six numeric fields
are spread from `computeNumericStats` and are present exactly together,
hence one `Option NumericStats`; `topValues`/`dateRange` likewise model
optional presence. -/
structure ColumnStats where
  column : String
  type : ColType
  uniqueCount : ℕ
  nullCount : ℕ
  numeric : Option NumericStats
  topValues : Option (List (String × ℕ))
  dateRange : Option (String × String)

/-- `DataSummary` of the data analysis utility. -/
structure DataSummary where
  rowCount : ℕ
  columnCount : ℕ
  columns : List String
  columnTypes : List (String × ColType)
  columnStats : List ColumnStats
  categoricalColumns : List String
  numericColumns : List String
  dateColumns : List String
  precomputedAggregations : List AggregationResult
  correlations : List CorrelationResult

/-- `columns.filter(c => columnTypes[c] === "number")`. -/
def numericColumnsOf (columns : List String) (ct : List (String × ColType)) :
    List String :=
  columns.filter (fun c => ct.lookup c == some .num)

/-- `columns.filter(c => columnTypes[c] === "string")`. -/
def categoricalColumnsOf (columns : List String) (ct : List (String × ColType)) :
    List String :=
  columns.filter (fun c => ct.lookup c == some .str)

/-- `columns.filter(c => columnTypes[c] === "date")`. -/
def dateColumnsOf (columns : List String) (ct : List (String × ColType)) :
    List String :=
  columns.filter (fun c => ct.lookup c == some .date)

/-- `v == null` (loose equality: null or undefined). -/
def isNullish : Value → Bool
  | .null => true
  | _ => false

/-- `new Set(data.map(row => row[col])).size`. -/
def uniqueCountOf (data : List Record) (col : String) : ℕ :=
  ((data.map (fun r => getV r col)).dedup).length

/-- `data.filter(row => row[col] == null || row[col] === "").length`. -/
def nullCountOf (data : List Record) (col : String) : ℕ :=
  (data.filter (fun r => isNullish (getV r col) || getV r col == .str "")).length

/-- The date range of a date column: non-null values sorted by their
string form (JS default sort), first and last reported. -/
def dateRangeOf (data : List Record) (col : String) : Option (String × String) :=
  let dates := ((data.map (fun r => getV r col)).filter
      (fun v => !isNullish v)).insertionSort
    (fun a b => jsValueToString a ≤ jsValueToString b)
  if dates.isEmpty then none
  else some (jsValueToString (dates.getD 0 .null),
    jsValueToString (dates.getD (dates.length - 1) .null))

/-- The per-column statistics record built inside `analyzeDataset`. -/
noncomputable def columnStatsOf (data : List Record) (col : String)
    (ct : List (String × ColType)) : ColumnStats :=
  let type := (ct.lookup col).getD .str
  { column := col
    type := type
    uniqueCount := uniqueCountOf data col
    nullCount := nullCountOf data col
    numeric := if type = .num then computeNumericStats data col else none
    topValues := if type = .str then some (computeCategoricalStats data col) else none
    dateRange := if type = .date then dateRangeOf data col else none }

/-- The categorical × numeric aggregation loop of `analyzeDataset`:
first 4 categorical columns (skipping those with more than 20 distinct
values) × first 6 numeric columns, each contributing a Sum and a Mean
aggregation. -/
def categoricalAggregations (data : List Record) (catCols numCols : List String) :
    List AggregationResult :=
  (catCols.take 4).flatMap (fun catCol =>
    if 20 < uniqueCountOf data catCol then []
    else (numCols.take 6).flatMap (fun numCol =>
      [{ description := "Total " ++ numCol ++ " by " ++ catCol
         groupBy := catCol
         metric := numCol
         operation := .sum
         data := aggregateByGroup data catCol numCol .sum },
       { description := "Average " ++ numCol ++ " by " ++ catCol
         groupBy := catCol
         metric := numCol
         operation := .mean
         data := aggregateByGroup data catCol numCol .mean }]))

/-- The ascending re-sort applied to date aggregations:
`sort((a, b) => String(a[dateCol]).localeCompare(String(b[dateCol])))`
(lexicographic on the string forms). -/
def dateAggSort (dc : String) (rows : List Record) : List Record :=
  rows.insertionSort
    (fun a b => jsValueToString (getV a dc) ≤ jsValueToString (getV b dc))

/-- The date × numeric time-series aggregation loop of `analyzeDataset`:
first 2 date columns × first 4 numeric columns, Sum only, rows re-sorted
ascending by the date key. -/
def dateAggregations (data : List Record) (dateCols numCols : List String) :
    List AggregationResult :=
  (dateCols.take 2).flatMap (fun dc =>
    (numCols.take 4).map (fun nc =>
      { description := nc ++ " over time (by " ++ dc ++ ")"
        groupBy := dc
        metric := nc
        operation := .sum
        data := dateAggSort dc (aggregateByGroup data dc nc .sum) }))

/-- The rows where both columns hold valid numbers, projected to the
number pairs (the `paired` array of `analyzeDataset`). -/
def pairedSamples (data : List Record) (x y : String) : List (ℚ × ℚ) :=
  (data.filter (fun r =>
      (numVal (getV r x)).isSome && (numVal (getV r y)).isSome)).map
    (fun r => ((numVal (getV r x)).getD 0, (numVal (getV r y)).getD 0))

/-- The index pairs `i < j` of the correlation double loop, in loop
order. -/
def ordPairs {α : Type} : List α → List (α × α)
  | [] => []
  | x :: xs => xs.map (fun y => (x, y)) ++ ordPairs xs

/-- The correlation loop of `analyzeDataset`: every unordered pair among
the first 5 numeric columns, kept only when at least 3 paired samples
exist, with the Pearson coefficient and the first 100 paired samples. -/
noncomputable def correlationResults (data : List Record) (numCols : List String) :
    List CorrelationResult :=
  (ordPairs (numCols.take 5)).filterMap (fun p =>
    if 3 ≤ (pairedSamples data p.1 p.2).length then
      some
        { xColumn := p.1
          yColumn := p.2
          correlation := pearsonCorrelation
            ((pairedSamples data p.1 p.2).map Prod.fst)
            ((pairedSamples data p.1 p.2).map Prod.snd)
          scatterData := (pairedSamples data p.1 p.2).take 100 }
    else none)

/-- `analyzeDataset(data, columns, columnTypes)` of the data analysis
utility. -/
noncomputable def analyzeDataset (data : List Record) (columns : List String)
    (columnTypes : List (String × ColType)) : DataSummary :=
  { rowCount := data.length
    columnCount := columns.length
    columns := columns
    columnTypes := columnTypes
    columnStats := columns.map (fun col => columnStatsOf data col columnTypes)
    categoricalColumns := categoricalColumnsOf columns columnTypes
    numericColumns := numericColumnsOf columns columnTypes
    dateColumns := dateColumnsOf columns columnTypes
    precomputedAggregations :=
      categoricalAggregations data (categoricalColumnsOf columns columnTypes)
          (numericColumnsOf columns columnTypes)
        ++ dateAggregations data (dateColumnsOf columns columnTypes)
          (numericColumnsOf columns columnTypes)
    correlations := correlationResults data (numericColumnsOf columns columnTypes) }

theorem computeNumericStats_congr {d1 d2 : List Record} {col : String}
    (h : numericValues d1 col = numericValues d2 col) :
    computeNumericStats d1 col = computeNumericStats d2 col := by
  have hsorted : sortedNumericValues d1 col = sortedNumericValues d2 col := by
    rw [sortedNumericValues, sortedNumericValues, h]
  have hmean : rawMeanOf d1 col = rawMeanOf d2 col := by
    rw [rawMeanOf, rawMeanOf, h]
  have hmedian : rawMedianOf d1 col = rawMedianOf d2 col := by
    rw [rawMedianOf, rawMedianOf, h, hsorted]
  have hvar : varianceOf d1 col = varianceOf d2 col := by
    rw [varianceOf, varianceOf, h, hmean]
  rw [computeNumericStats, computeNumericStats, h, hsorted, hmean, hmedian, hvar]

/-- **C5.** `analyzeDataset` is total (it is a Lean function); an empty
dataset with its (necessarily empty) column list yields a summary with
zero rows, zero columns, no column stats, no aggregations and no
correlations; malformed individual values are excluded from the numeric
reduction rather than failing (dropping a non-numeric cell row leaves
`computeNumericStats` unchanged); and a numeric-typed column with zero
valid numeric samples carries `none` in place of the numeric stats
fields, not zero defaults. -/
theorem claim_C5_analyzeDataset_total (ct : List (String × ColType)) :
    (analyzeDataset [] [] ct).rowCount = 0
      ∧ (analyzeDataset [] [] ct).columnCount = 0
      ∧ (analyzeDataset [] [] ct).columnStats = []
      ∧ (analyzeDataset [] [] ct).precomputedAggregations = []
      ∧ (analyzeDataset [] [] ct).correlations = []
      ∧ (∀ (d1 d2 : List Record) (r : Record) (col : String),
          numVal (getV r col) = none →
          computeNumericStats (d1 ++ r :: d2) col
            = computeNumericStats (d1 ++ d2) col)
      ∧ (∀ (data : List Record) (cols : List String) (col : String),
          numericValues data col = [] →
          ∀ st ∈ (analyzeDataset data cols ct).columnStats,
            st.column = col → st.numeric = none) := by
  refine ⟨rfl, rfl, rfl, rfl, rfl, ?_, ?_⟩
  · intro d1 d2 r col hnone
    refine computeNumericStats_congr ?_
    rw [numericValues, numericValues, List.map_append, List.map_cons,
      List.filterMap_append, List.filterMap_cons, hnone, List.map_append,
      List.filterMap_append]
  · intro data cols col hempty st hst hcol
    rcases List.mem_map.mp hst with ⟨c, _, hc⟩
    have hcc : c = col := by
      rw [← hcol, ← hc]
      rfl
    subst hcc
    rw [← hc]
    show (if (ct.lookup c).getD .str = .num
        then computeNumericStats data c else none) = none
    by_cases ht : (ct.lookup c).getD .str = .num
    · rw [if_pos ht]
      exact computeNumericStats_eq_none hempty
    · rw [if_neg ht]

/-- The dataset for the C5 witness: a numeric-typed column whose only
value is a string, hence zero valid numeric samples. -/
def c5Rows : List Record := [[("n", .str "x")]]

/-- The column-type map for the C5 witness. -/
def c5Types : List (String × ColType) := [("n", .num)]

/-- Witness for C5: on `c5Rows` the numeric-typed column `n` has no
valid numeric value and its stats record carries `none` for the numeric
fields. -/
theorem claim_C5_analyzeDataset_total_witness :
    (columnStatsOf c5Rows "n" c5Types).numeric = none :=
  (claim_C5_analyzeDataset_total c5Types).2.2.2.2.2.2 c5Rows ["n"] "n" rfl
    (columnStatsOf c5Rows "n" c5Types) (List.mem_cons_self _ _) rfl

theorem length_flatMap_map {α β γ : Type} (l : List α) (m : List β) (f : α → β → γ) :
    (l.flatMap (fun a => m.map (f a))).length = l.length * m.length := by
  induction l with
  | nil => simp
  | cons a l ih => simp [List.flatMap_cons, ih, Nat.succ_mul, Nat.add_comm]

theorem dateAggregations_length (data : List Record) (dateCols numCols : List String) :
    (dateAggregations data dateCols numCols).length
      = min 2 dateCols.length * min 4 numCols.length := by
  rw [dateAggregations, length_flatMap_map, List.length_take, List.length_take]

/-- **C9.** `analyzeDataset` generates date-based time-series
aggregations exactly for the first 2 date columns crossed with the first
4 numeric columns (appended after the categorical aggregations), with
operation Sum only, and every such aggregation's rows are re-sorted
ascending (lexicographically) by the date-column group-key string,
overriding the aggregator's default descending-by-value order (of which
they remain a permutation). -/
theorem claim_C9_dateAggregations (data : List Record) (columns : List String)
    (ct : List (String × ColType)) :
    (analyzeDataset data columns ct).precomputedAggregations
        = categoricalAggregations data (categoricalColumnsOf columns ct)
            (numericColumnsOf columns ct)
          ++ dateAggregations data (dateColumnsOf columns ct)
            (numericColumnsOf columns ct)
      ∧ (dateAggregations data (dateColumnsOf columns ct)
          (numericColumnsOf columns ct)).length
          = min 2 (dateColumnsOf columns ct).length
            * min 4 (numericColumnsOf columns ct).length
      ∧ ∀ a ∈ dateAggregations data (dateColumnsOf columns ct)
          (numericColumnsOf columns ct),
          a.operation = .sum
            ∧ a.groupBy ∈ (dateColumnsOf columns ct).take 2
            ∧ a.metric ∈ (numericColumnsOf columns ct).take 4
            ∧ a.data.Perm (aggregateByGroup data a.groupBy a.metric .sum)
            ∧ a.data.Pairwise (fun r1 r2 =>
                jsValueToString (getV r1 a.groupBy)
                  ≤ jsValueToString (getV r2 a.groupBy)) := by
  refine ⟨rfl, dateAggregations_length data _ _, ?_⟩
  intro a ha
  rw [dateAggregations] at ha
  rcases List.mem_flatMap.mp ha with ⟨dc, hdc, hmem⟩
  rcases List.mem_map.mp hmem with ⟨nc, hnc, hEq⟩
  subst hEq
  haveI instTot : IsTotal Record (fun r1 r2 =>
      jsValueToString (getV r1 dc) ≤ jsValueToString (getV r2 dc)) :=
    ⟨fun r1 r2 => le_total _ _⟩
  haveI instTrans : IsTrans Record (fun r1 r2 =>
      jsValueToString (getV r1 dc) ≤ jsValueToString (getV r2 dc)) :=
    ⟨fun _ _ _ hab hbc => le_trans hab hbc⟩
  exact ⟨rfl, hdc, hnc, List.perm_insertionSort _ _,
    List.sorted_insertionSort _ _⟩

/-- The rows for the C9/C10 witnesses: a date column `d` and numeric
columns `a`, `b` over three rows. -/
def c9Rows : List Record :=
  [[("d", .str "2024-01-02"), ("a", .num 1), ("b", .num 2)],
   [("d", .str "2024-01-01"), ("a", .num 2), ("b", .num 4)],
   [("d", .str "2024-01-03"), ("a", .num 3), ("b", .num 6)]]

/-- The column types for the C9/C10 witnesses. -/
def c9Types : List (String × ColType) :=
  [("d", .date), ("a", .num), ("b", .num)]

/-- The first date aggregation generated on `c9Rows`. -/
def c9Agg : AggregationResult :=
  { description := "a" ++ " over time (by " ++ "d" ++ ")"
    groupBy := "d"
    metric := "a"
    operation := .sum
    data := dateAggSort "d" (aggregateByGroup c9Rows "d" "a" .sum) }

/-- Witness for C9: the concrete date aggregation `c9Agg` generated on
`c9Rows` is Sum-only, over the leading date/numeric columns, sorted
ascending by date key. -/
theorem claim_C9_dateAggregations_witness :
    c9Agg.operation = .sum
      ∧ c9Agg.groupBy ∈ (dateColumnsOf ["d", "a", "b"] c9Types).take 2
      ∧ c9Agg.metric ∈ (numericColumnsOf ["d", "a", "b"] c9Types).take 4
      ∧ c9Agg.data.Perm (aggregateByGroup c9Rows c9Agg.groupBy c9Agg.metric .sum)
      ∧ c9Agg.data.Pairwise (fun r1 r2 =>
          jsValueToString (getV r1 c9Agg.groupBy)
            ≤ jsValueToString (getV r2 c9Agg.groupBy)) :=
  (claim_C9_dateAggregations c9Rows ["d", "a", "b"] c9Types).2.2 c9Agg
    (List.mem_cons_self _ _)

theorem pairedSamples_length_symm (data : List Record) (x y : String) :
    (pairedSamples data x y).length = (pairedSamples data y x).length := by
  rw [pairedSamples, pairedSamples, List.length_map, List.length_map]
  congr 1
  refine List.filter_congr fun r _ => ?_
  exact Bool.and_comm _ _

theorem mem_correlationResults {data : List Record} {numCols : List String}
    {res : CorrelationResult} (h : res ∈ correlationResults data numCols) :
    3 ≤ (pairedSamples data res.xColumn res.yColumn).length := by
  rw [correlationResults] at h
  rcases List.mem_filterMap.mp h with ⟨p, _, hp⟩
  by_cases hc : 3 ≤ (pairedSamples data p.1 p.2).length
  · rw [if_pos hc] at hp
    rcases Option.some.injEq _ _ |>.mp hp with rfl
    exact hc
  · rw [if_neg hc] at hp
    exact absurd hp (Option.noConfusion)

/-- **C10.** Every `CorrelationResult` emitted by `analyzeDataset` was
computed from at least 3 paired samples, and a column pair with fewer
than 3 rows in which both columns hold valid numbers gets no entry at
all in the correlations sequence — in neither orientation, and not even
one with correlation 0. -/
theorem claim_C10_correlation_pairs (data : List Record) (columns : List String)
    (ct : List (String × ColType)) :
    (∀ res ∈ (analyzeDataset data columns ct).correlations,
        3 ≤ (pairedSamples data res.xColumn res.yColumn).length)
      ∧ (∀ x y : String, (pairedSamples data x y).length < 3 →
          ∀ res ∈ (analyzeDataset data columns ct).correlations,
            ¬ ((res.xColumn = x ∧ res.yColumn = y)
              ∨ (res.xColumn = y ∧ res.yColumn = x))) := by
  constructor
  · intro res hres
    exact mem_correlationResults hres
  · intro x y hlen res hres hor
    have h3 := mem_correlationResults hres
    rcases hor with ⟨hx, hy⟩ | ⟨hx, hy⟩
    · rw [hx, hy] at h3
      omega
    · rw [hx, hy, ← pairedSamples_length_symm] at h3
      omega

/-- The first correlation result generated on `c9Rows`. -/
noncomputable def c10Res : CorrelationResult :=
  { xColumn := "a"
    yColumn := "b"
    correlation := pearsonCorrelation
      ((pairedSamples c9Rows "a" "b").map Prod.fst)
      ((pairedSamples c9Rows "a" "b").map Prod.snd)
    scatterData := (pairedSamples c9Rows "a" "b").take 100 }

/-- Witness for C10: the emitted correlation between `a` and `b` on
`c9Rows` rests on at least 3 paired samples. -/
theorem claim_C10_correlation_pairs_witness :
    3 ≤ (pairedSamples c9Rows c10Res.xColumn c10Res.yColumn).length :=
  (claim_C10_correlation_pairs c9Rows ["d", "a", "b"] c9Types).1 c10Res
    (List.mem_cons_self _ _)

/- ### Relevance Matcher -/

/-- Model of JS `String.prototype.toLowerCase` (ASCII, character-wise —
sufficient for the analysed code's column names and queries). -/
def toLowerStr (s : String) : String := String.mk (s.toList.map Char.toLower)

/-- Helper of `splitWS`: accumulate the current fragment until a
whitespace character ends it. -/
def splitWSAux : List Char → List Char → List String
  | [], acc => [String.mk acc.reverse]
  | c :: cs, acc =>
    if c.isWhitespace then String.mk acc.reverse :: splitWSAux cs []
    else splitWSAux cs (c :: acc)

/-- Model of the query split `q.split(/\s+/)`: split on whitespace.
(This yields an empty fragment per extra whitespace; such fragments have
length < 3 and never score.) -/
def splitWS (s : String) : List String := splitWSAux s.toList []

/-- Model of JS `String.prototype.includes`: `sub` occurs contiguously
in `s`. -/
def jsIncludes (s sub : String) : Bool :=
  (List.range (s.toList.length + 1)).any
    (fun i => ((s.toList.drop i).take sub.toList.length) == sub.toList)

/-- The relevance score of one aggregation against the (lower-cased)
query: +3 for the group-by name occurring in the query, +3 for the
metric name; per query word of length ≥ 3 (whitespace-split; JS splits
on `/\s+/`, which differs only by empty fragments that score 0), +1 if
the description contains it, +2 if the group-by name does, +2 if the
metric name does; +2 for a matching Sum or Mean operation hint. -/
def scoreAgg (q : String) (agg : AggregationResult) : ℕ :=
  let desc := toLowerStr agg.description
  let groupLower := toLowerStr agg.groupBy
  let metricLower := toLowerStr agg.metric
  let base := (if jsIncludes q groupLower then 3 else 0)
    + (if jsIncludes q metricLower then 3 else 0)
  let words := splitWS q
  let wordScore := (words.map (fun w =>
    if w.length < 3 then 0
    else (if jsIncludes desc w then 1 else 0)
      + (if jsIncludes groupLower w then 2 else 0)
      + (if jsIncludes metricLower w then 2 else 0))).sum
  let opScore := (if (jsIncludes q "total" || jsIncludes q "sum")
        && agg.operation == .sum then 2 else 0)
    + (if (jsIncludes q "average" || jsIncludes q "avg" || jsIncludes q "mean")
        && agg.operation == .mean then 2 else 0)
  base + wordScore + opScore

/-- `findRelevantAggregation(summary, query)`: lower-case the query,
track the best strictly-improving score over the aggregation bank, and
return the best candidate only when its score reaches 3. -/
def findRelevantAggregation (summary : DataSummary) (query : String) :
    Option AggregationResult :=
  let q := toLowerStr query
  let best := summary.precomputedAggregations.foldl
    (fun (b : ℕ × Option AggregationResult) agg =>
      if b.1 < scoreAgg q agg then (scoreAgg q agg, some agg) else b)
    (0, none)
  if 3 ≤ best.1 then best.2 else none

/-- The highest score any aggregation of the bank attains. -/
def maxScore (q : String) (aggs : List AggregationResult) : ℕ :=
  (aggs.map (scoreAgg q)).foldr max 0

theorem foldl_best_eq (q : String) :
    ∀ (aggs : List AggregationResult) (b : ℕ) (ba : Option AggregationResult),
      aggs.foldl (fun acc agg =>
          if acc.1 < scoreAgg q agg then (scoreAgg q agg, some agg) else acc)
        (b, ba)
        = if b < maxScore q aggs
          then (maxScore q aggs,
            aggs.find? (fun a => scoreAgg q a == maxScore q aggs))
          else (b, ba)
  | [], b, ba => by simp [maxScore]
  | a :: rest, b, ba => by
    have hM : maxScore q (a :: rest) = max (scoreAgg q a) (maxScore q rest) := rfl
    rw [List.foldl_cons]
    by_cases hbs : b < scoreAgg q a
    · rw [if_pos hbs, foldl_best_eq q rest (scoreAgg q a) (some a)]
      by_cases hsM : scoreAgg q a < maxScore q rest
      · have hmax : max (scoreAgg q a) (maxScore q rest) = maxScore q rest :=
          max_eq_right (le_of_lt hsM)
        rw [if_pos hsM, hM, hmax, if_pos (lt_trans hbs hsM),
          List.find?_cons_of_neg _ (by simp; omega)]
      · have hle : maxScore q rest ≤ scoreAgg q a := le_of_not_lt hsM
        have hmax : max (scoreAgg q a) (maxScore q rest) = scoreAgg q a :=
          max_eq_left hle
        rw [if_neg hsM, hM, hmax, if_pos hbs,
          List.find?_cons_of_pos _ (by simp)]
    · have hsb : scoreAgg q a ≤ b := le_of_not_lt hbs
      rw [if_neg hbs, foldl_best_eq q rest b ba, hM]
      by_cases hbM : b < maxScore q rest
      · have hmax : max (scoreAgg q a) (maxScore q rest) = maxScore q rest :=
          max_eq_right (by omega)
        rw [if_pos hbM, hmax, if_pos hbM,
          List.find?_cons_of_neg _ (by simp; omega)]
      · have hnb : ¬ b < max (scoreAgg q a) (maxScore q rest) := by
          rw [lt_max_iff]
          push_neg
          exact ⟨le_of_not_lt hbs, le_of_not_lt hbM⟩
        rw [if_neg hbM, if_neg hnb]

theorem findRelevantAggregation_eq (summary : DataSummary) (query : String) :
    findRelevantAggregation summary query
      = if 3 ≤ maxScore (toLowerStr query) summary.precomputedAggregations
        then summary.precomputedAggregations.find?
          (fun a => scoreAgg (toLowerStr query) a
            == maxScore (toLowerStr query) summary.precomputedAggregations)
        else none := by
  rw [findRelevantAggregation]
  show (if 3 ≤ (summary.precomputedAggregations.foldl _ (0, none)).1
      then (summary.precomputedAggregations.foldl _ (0, none)).2 else none) = _
  rw [foldl_best_eq]
  by_cases h0 : 0 < maxScore (toLowerStr query) summary.precomputedAggregations
  · rw [if_pos h0]
  · rw [if_neg h0]
    have hM0 : maxScore (toLowerStr query) summary.precomputedAggregations = 0 := by
      omega
    rw [hM0]
    norm_num

/-- The scenario D aggregation `{groupBy: region, metric: revenue,
operation: Sum}`. -/
def c3Agg : AggregationResult :=
  { description := "Total revenue by region"
    groupBy := "region"
    metric := "revenue"
    operation := .sum
    data := [] }

/-- A summary whose aggregation bank contains exactly `c3Agg`. -/
def c3Summary : DataSummary :=
  { rowCount := 0, columnCount := 0, columns := [], columnTypes := [],
    columnStats := [], categoricalColumns := [], numericColumns := [],
    dateColumns := [], precomputedAggregations := [c3Agg], correlations := [] }

/-- **C3.** `findRelevantAggregation` scores each aggregation by the
lexical rule table embodied in `scoreAgg` and returns the
first-encountered highest-scoring aggregation iff the winning score is
at least 3 (`find?` of the maximum), and `none` otherwise; scenario D
(query `"total revenue by region"` against a bank containing `c3Agg`)
returns that aggregation. -/
theorem claim_C3_findRelevantAggregation (summary : DataSummary) (query : String) :
    findRelevantAggregation summary query
        = (if 3 ≤ maxScore (toLowerStr query) summary.precomputedAggregations
          then summary.precomputedAggregations.find?
            (fun a => scoreAgg (toLowerStr query) a
              == maxScore (toLowerStr query) summary.precomputedAggregations)
          else none)
      ∧ findRelevantAggregation c3Summary "total revenue by region" = some c3Agg := by
  refine ⟨findRelevantAggregation_eq summary query, ?_⟩
  decide

/- ### Type Inferencer (`detectColumnTypes` of `DataContext.tsx`) -/

/-- Structural model of `String.prototype.trim`. -/
def trimStr (s : String) : String :=
  String.mk (((s.toList.dropWhile Char.isWhitespace).reverse.dropWhile
    Char.isWhitespace).reverse)

/-- The numeric value of a digit list, most significant first. -/
def natOfDigits (l : List Char) : ℕ :=
  l.foldl (fun acc c => 10 * acc + (c.toNat - 48)) 0

/-- A finite-decimal JavaScript number `(-1)^neg · mant / 10^scale`, the
shape every decimal numeric literal parses to. Modelling the host
`Number` as this pair (rather than a float) is exact for the decimal
literals the type detector inspects. -/
structure DecNum where
  neg : Bool
  mant : ℕ
  scale : ℕ
deriving DecidableEq, Repr

/-- Split a character list at the first `'.'`. -/
def splitDot : List Char → List Char × Option (List Char)
  | [] => ([], none)
  | c :: cs =>
    if c = '.' then ([], some cs)
    else
      match splitDot cs with
      | (a, b) => (c :: a, b)

/-- Model of the host `Number(string)` conversion for decimal literals:
trim, optional sign, digits with an optional fraction part; `""` and
whitespace-only strings convert to `0`; anything else (including
thousands separators such as `"1,000"`, and exponent or hex forms,
which could anyway never round-trip) is NaN, i.e. `none`. -/
def jsParseNum (s : String) : Option DecNum :=
  match (trimStr s).toList with
  | [] => some ⟨false, 0, 0⟩
  | c :: rest =>
    let neg := c = '-'
    let body := if c = '-' || c = '+' then rest else c :: rest
    match splitDot body with
    | (ip, none) =>
      if ip.isEmpty then none
      else if ip.all Char.isDigit then some ⟨neg, natOfDigits ip, 0⟩
      else none
    | (ip, some fp) =>
      if ip.isEmpty && fp.isEmpty then none
      else if ip.all Char.isDigit && fp.all Char.isDigit then
        some ⟨neg, natOfDigits (ip ++ fp), fp.length⟩
      else none

/-- Drop trailing decimal zeros: `(mant, scale)` with `mant % 10 = 0`
and `scale > 0` reduces to `(mant/10, scale-1)`; fuelled by `scale`. -/
def stripZeros : ℕ → ℕ → ℕ → ℕ × ℕ
  | 0, m, sc => (m, sc)
  | fuel + 1, m, sc =>
    if sc = 0 then (m, sc)
    else if m % 10 = 0 then stripZeros fuel (m / 10) (sc - 1)
    else (m, sc)

/-- Left-pad with `'0'` to length `k`. -/
def padLeftZeros (k : ℕ) (s : String) : String :=
  String.mk (List.replicate (k - s.length) '0') ++ s

/-- Model of the host `String(number)` conversion on finite decimals:
canonical shortest decimal form — no leading zeros, no trailing
fraction zeros, no sign on zero. -/
def jsNumToString (d : DecNum) : String :=
  match stripZeros d.scale d.mant d.scale with
  | (m, sc) =>
    if m = 0 then "0"
    else
      let ip := Nat.repr (m / 10 ^ sc)
      let core := if sc = 0 then ip
        else ip ++ "." ++ padLeftZeros sc (Nat.repr (m % 10 ^ sc))
      if d.neg then "-" ++ core else core

/-- One sample passes the number check of `detectColumnTypes`:
`typeof v === "number"`, or a string `s` with
`!isNaN(Number(s)) && String(Number(s)) === String(s).trim()` — i.e. it
parses and round-trips to its own trimmed text (so `"007"` or
`"1,000"` do not pass). -/
def isNumericSample : Value → Bool
  | .num _ => true
  | .nan => true
  | .str s =>
    match jsParseNum s with
    | some d => jsNumToString d == trimStr s
    | none => false
  | .null => false

/-- The up-to-10 leading non-null samples of a column:
`data.slice(0, 10).map(row => row[col]).filter(v => v != null && v !== "")`. -/
def detectSamples (data : List Record) (col : String) : List Value :=
  ((data.take 10).map (fun r => getV r col)).filter
    (fun v => !isNullish v && v != .str "")

/-- The per-column rule of `detectColumnTypes`, parametrised by the host
date check `new Date(v)`/`!isNaN(d.getTime())` (`dateOk`), which is
implementation-defined in JS: no non-null sample → String; else all
samples numeric → Number; else all samples dates → Date; else String. -/
def inferColumnType (dateOk : Value → Bool) (data : List Record) (col : String) :
    ColType :=
  let samples := detectSamples data col
  if samples.isEmpty then .str
  else if samples.all isNumericSample then .num
  else if samples.all dateOk then .date
  else .str

/-- `detectColumnTypes(data)`: one inferred type per key of the first
row; `{}` for an empty dataset. -/
def detectColumnTypes (dateOk : Value → Bool) (data : List Record) :
    List (String × ColType) :=
  match data with
  | [] => []
  | r :: _ => (r.map Prod.fst).map (fun c => (c, inferColumnType dateOk data c))

/-- **C4.** For every column the type is inferred once from the up-to-10
leading non-null samples: no sample → String; else Number iff every
sample is already numeric or round-trips losslessly through the numeric
conversion (so `"007"` and `"1,000"` are not Number); else Date iff
every sample passes the date parse; else String — with the check order
Number before Date before String fixed, the first matching rule winning,
and `detectColumnTypes` applying this rule once per column of the first
row. -/
theorem claim_C4_inferColumnType (dateOk : Value → Bool) (data : List Record)
    (col : String) :
    (detectSamples data col = [] → inferColumnType dateOk data col = .str)
      ∧ (detectSamples data col ≠ [] →
          (detectSamples data col).all isNumericSample = true →
          inferColumnType dateOk data col = .num)
      ∧ (detectSamples data col ≠ [] →
          (detectSamples data col).all isNumericSample = false →
          (detectSamples data col).all dateOk = true →
          inferColumnType dateOk data col = .date)
      ∧ (detectSamples data col ≠ [] →
          (detectSamples data col).all isNumericSample = false →
          (detectSamples data col).all dateOk = false →
          inferColumnType dateOk data col = .str)
      ∧ detectSamples data col
          = ((data.take 10).map (fun r => getV r col)).filter
              (fun v => !isNullish v && v != .str "")
      ∧ (∀ r rest, detectColumnTypes dateOk (r :: rest)
          = (r.map Prod.fst).map
              (fun c => (c, inferColumnType dateOk (r :: rest) c)))
      ∧ detectColumnTypes dateOk [] = []
      ∧ isNumericSample (.str "007") = false
      ∧ isNumericSample (.str "1,000") = false
      ∧ inferColumnType dateOk [[("c", .str "007")]] "c" ≠ .num
      ∧ inferColumnType dateOk [[("c", .str "1,000")]] "c" ≠ .num := by
  have hEmptyIff : detectSamples data col = [] ↔
      (detectSamples data col).isEmpty = true := by
    rw [List.isEmpty_iff]
  refine ⟨?_, ?_, ?_, ?_, rfl, fun r rest => rfl, rfl, by decide, by decide, ?_, ?_⟩
  · intro h
    rw [inferColumnType, if_pos (hEmptyIff.mp h)]
  · intro h hall
    rw [inferColumnType, if_neg (fun hc => h (hEmptyIff.mpr hc)), if_pos hall]
  · intro h hnum hdate
    rw [inferColumnType, if_neg (fun hc => h (hEmptyIff.mpr hc)),
      if_neg (by rw [hnum]; exact Bool.false_ne_true), if_pos hdate]
  · intro h hnum hdate
    rw [inferColumnType, if_neg (fun hc => h (hEmptyIff.mpr hc)),
      if_neg (by rw [hnum]; exact Bool.false_ne_true),
      if_neg (by rw [hdate]; exact Bool.false_ne_true)]
  · rw [inferColumnType]
    have h1 : (detectSamples [[("c", .str "007")]] "c").isEmpty = false := by decide
    have h2 : (detectSamples [[("c", .str "007")]] "c").all isNumericSample
        = false := by decide
    rw [h1, h2]
    cases hd : (detectSamples [[("c", .str "007")]] "c").all dateOk <;> simp
  · rw [inferColumnType]
    have h1 : (detectSamples [[("c", .str "1,000")]] "c").isEmpty = false := by
      decide
    have h2 : (detectSamples [[("c", .str "1,000")]] "c").all isNumericSample
        = false := by decide
    rw [h1, h2]
    cases hd : (detectSamples [[("c", .str "1,000")]] "c").all dateOk <;> simp

/-- Witness for C4: a column whose single sample is the number `1` is
classified Number; one whose single sample is `"abc"` (failing both the
number and the date check, with a date model rejecting everything) is
classified String. -/
theorem claim_C4_inferColumnType_witness :
    inferColumnType (fun _ => false) [[("c", .num 1)]] "c" = .num
      ∧ inferColumnType (fun _ => false) [[("c", .str "abc")]] "c" = .str :=
  ⟨(claim_C4_inferColumnType (fun _ => false) [[("c", .num 1)]] "c").2.1
      (by decide) (by decide),
    (claim_C4_inferColumnType (fun _ => false) [[("c", .str "abc")]] "c").2.2.2.1
      (by decide) (by decide) (by decide)⟩
